import Mathlib

/-!
Verification of `src/emoji_translator.py`.

The Python program is embedded shallowly: strings are Lean `String`s,
Python dictionaries become association lists (all keys are distinct, so
lookup agrees with dictionary access), and code that can raise a Python
exception returns `Except String α`, the error string naming the exception.

The Unicode-dependent `str` methods (`isalpha`, `isdigit`, `lower`, `upper`,
`isspace` and the regex classes built from them) are modelled faithfully on
the code points U+0000..U+00FF (Basic Latin and Latin-1 Supplement); code
points above U+00FF are treated as non-alphabetic, non-digit, non-word and
non-space.  Every concrete input considered below lies in the modelled range.
-/

deriving instance DecidableEq for Except

/-- `c` is an ASCII uppercase letter `'A'`..`'Z'` (U+0041..U+005A). -/
def isAsciiUpperChar (c : Char) : Bool := 0x41 ≤ c.toNat && c.toNat ≤ 0x5A

/-- `c` is an ASCII lowercase letter `'a'`..`'z'` (U+0061..U+007A). -/
def isAsciiLowerChar (c : Char) : Bool := 0x61 ≤ c.toNat && c.toNat ≤ 0x7A

/-- `c` is an ASCII decimal digit `'0'`..`'9'` (U+0030..U+0039). -/
def isAsciiDigitChar (c : Char) : Bool := 0x30 ≤ c.toNat && c.toNat ≤ 0x39

/-- Latin-1 uppercase letters À..Þ (U+00C0..U+00DE, excluding × U+00D7). -/
def isLatin1UpperChar (c : Char) : Bool :=
  (0xC0 ≤ c.toNat && c.toNat ≤ 0xDE) && !(c.toNat == 0xD7)

/-- Latin-1 lowercase letters: ß..ÿ (U+00DF..U+00FF, excluding ÷ U+00F7)
together with µ (U+00B5, Unicode category Ll). -/
def isLatin1LowerChar (c : Char) : Bool :=
  ((0xDF ≤ c.toNat && c.toNat ≤ 0xFF) && !(c.toNat == 0xF7)) || c.toNat == 0xB5

/-- Latin-1 letters of category Lo: ª (U+00AA) and º (U+00BA). -/
def isLatin1OtherAlphaChar (c : Char) : Bool :=
  c.toNat == 0xAA || c.toNat == 0xBA

/-- Python `str.isalpha` on a single character, restricted to
U+0000..U+00FF (code points above that range are modelled as
non-alphabetic). -/
def pyIsAlphaChar (c : Char) : Bool :=
  isAsciiUpperChar c || isAsciiLowerChar c || isLatin1UpperChar c ||
    isLatin1LowerChar c || isLatin1OtherAlphaChar c

/-- Python `str.isdigit` on a single character, restricted to
U+0000..U+00FF: the ASCII digits together with the superscripts
² (U+00B2), ³ (U+00B3) and ¹ (U+00B9), whose `Numeric_Type` is `Digit`. -/
def pyIsDigitChar (c : Char) : Bool :=
  isAsciiDigitChar c || c.toNat == 0xB2 || c.toNat == 0xB3 || c.toNat == 0xB9

/-- The vulgar fractions ¼ ½ ¾ (U+00BC..U+00BE): numeric (hence matched by
the regex class `\w`) but not digits. -/
def isLatin1NumericFractionChar (c : Char) : Bool :=
  c.toNat == 0xBC || c.toNat == 0xBD || c.toNat == 0xBE

/-- The regex class `\w` of Python `re` in Unicode mode, restricted to
U+0000..U+00FF: alphanumeric characters (alphabetic, digit, or numeric)
and the underscore. -/
def pyIsWordChar (c : Char) : Bool :=
  pyIsAlphaChar c || pyIsDigitChar c || isLatin1NumericFractionChar c || c == '_'

/-- The regex class `\s` of Python `re` in Unicode mode, restricted to
U+0000..U+00FF: tab, LF, VT, FF, CR, the separators U+001C..U+001F,
space, NEL (U+0085) and NBSP (U+00A0). -/
def pyIsSpaceChar (c : Char) : Bool :=
  c.toNat == 0x09 || c.toNat == 0x0A || c.toNat == 0x0B || c.toNat == 0x0C ||
    c.toNat == 0x0D || c.toNat == 0x1C || c.toNat == 0x1D || c.toNat == 0x1E ||
    c.toNat == 0x1F || c.toNat == 0x20 || c.toNat == 0x85 || c.toNat == 0xA0

/-- Python `str.lower` on a single character, restricted to U+0000..U+00FF.
On this range lowercasing maps each uppercase letter (ASCII or Latin-1)
forward by 32 code points and fixes everything else. -/
def pyCharLower (c : Char) : Char :=
  if isAsciiUpperChar c || isLatin1UpperChar c then Char.ofNat (c.toNat + 32) else c

/-- Python `str.upper` on a single character, for every character whose
uppercase form is again a single character (on U+0000..U+00FF, every
character except ß). -/
def pyCharUpper1 (c : Char) : Char :=
  if isAsciiLowerChar c then Char.ofNat (c.toNat - 32)
  else if (0xE0 ≤ c.toNat && c.toNat ≤ 0xFE) && !(c.toNat == 0xF7) then
    Char.ofNat (c.toNat - 32)
  else if c.toNat == 0xFF then Char.ofNat 0x178
  else if c.toNat == 0xB5 then Char.ofNat 0x39C
  else c

/-- Python `str.upper` on a single character, as a string (list of
characters): ß (U+00DF) uppercases to the two-character string "SS"
(Unicode full case mapping); every other character in the modelled range
uppercases to a single character. -/
def pyCharUpper (c : Char) : List Char :=
  if c.toNat == 0xDF then ['S', 'S'] else [pyCharUpper1 c]

/-- Python `str.lower` on a whole string (character-wise on the modelled
range, where lowercasing never changes the length). -/
def pyStrLower (s : String) : String := String.mk (s.data.map pyCharLower)

/-- Python `str.isdigit` on a whole string: nonempty and every character a
digit. -/
def pyStrIsDigit (s : String) : Bool := !s.data.isEmpty && s.data.all pyIsDigitChar

/-- Python `str.isalpha` on a whole string: nonempty and every character
alphabetic. -/
def pyStrIsAlpha (s : String) : Bool := !s.data.isEmpty && s.data.all pyIsAlphaChar

/-- Python `ord` applied to a string: the code point when the string has
exactly one character, a `TypeError` otherwise. -/
def pyOrd (s : List Char) : Except String Nat :=
  match s with
  | [c] => .ok c.toNat
  | _ => .error "TypeError: ord() expected a character, but string of length 2 found"

/-- The dictionary `WORD_EMOJI` of the source (insertion order preserved). -/
def WORD_EMOJI : List (String × String) :=
  [("i", "👁️"), ("me", "🙋"), ("you", "🫵"), ("love", "❤️"), ("like", "👍"),
   ("hate", "💔"), ("happy", "😄"), ("sad", "😢"), ("pizza", "🍕"),
   ("coffee", "☕"), ("tea", "🍵"), ("cat", "🐱"), ("dog", "🐶"),
   ("money", "💰"), ("party", "🎉"), ("dance", "💃"), ("sleep", "😴"),
   ("music", "🎵"), ("fire", "🔥"), ("star", "⭐"), ("moon", "🌙"),
   ("sun", "☀️"), ("phone", "📱"), ("computer", "💻"), ("code", "💻"),
   ("study", "📚"), ("book", "📖"), ("car", "🚗"), ("bike", "🚲"),
   ("work", "🏢"), ("yes", "✅"), ("no", "❌"), ("maybe", "🤷"),
   ("hello", "👋"), ("hi", "👋"), ("bye", "👋"), ("thanks", "🙏"),
   ("thank", "🙏"), ("wow", "😲"), ("what", "❓"), ("why", "❓"),
   ("who", "👤"), ("where", "📍"), ("when", "⏰"), ("ok", "👌")]

/-- The dictionary `PHRASE_EMOJI` of the source (insertion order preserved). -/
def PHRASE_EMOJI : List (String × String) :=
  [("i love you", "❤️💋"), ("good night", "🌙😴"), ("good morning", "☀️🌅"),
   ("i am", "🙋‍♂️ is"), ("happy birthday", "🎂🎉")]

/-- The dictionary `DIGIT_KEYCAP` of the source. -/
def DIGIT_KEYCAP : List (Char × String) :=
  [('0', "0️⃣"), ('1', "1️⃣"), ('2', "2️⃣"), ('3', "3️⃣"), ('4', "4️⃣"),
   ('5', "5️⃣"), ('6', "6️⃣"), ('7', "7️⃣"), ('8', "8️⃣"), ('9', "9️⃣")]

/-- The three module-level lookup tables, gathered into one record so that
the translation functions can be stated over an explicit table state. -/
structure Tables where
  word : List (String × String)
  phrase : List (String × String)
  digit : List (Char × String)
deriving DecidableEq

/-- The tables as initialised at module load. -/
def initTables : Tables := ⟨WORD_EMOJI, PHRASE_EMOJI, DIGIT_KEYCAP⟩

/-- `letter_to_regional` of the source: non-alphabetic input is returned
unchanged; otherwise `chr(ord('🇦') + (ord(letter.upper()) - ord('A')))`,
where `ord` raises a `TypeError` when `letter.upper()` is not a single
character (as for ß). -/
def letter_to_regional (letter : Char) : Except String Char :=
  if !pyIsAlphaChar letter then .ok letter
  else
    (pyOrd (pyCharUpper letter)).map fun u =>
      Char.ofNat ((0x1F1E6 + ((u : Int) - ('A'.toNat : Int))).toNat)

/-- The digit branch of `translate_token`:
`"".join(DIGIT_KEYCAP.get(d, d) for d in token)`. -/
def digitJoin (digit : List (Char × String)) (token : String) : String :=
  String.join (token.data.map fun d => (List.lookup d digit).getD (String.singleton d))

/-- One step of the character-wise fallback loop of `translate_token`:
alphabetic characters go through `letter_to_regional`, digits through
`DIGIT_KEYCAP.get(ch, ch)`, anything else is kept unchanged. -/
def translitChar (digit : List (Char × String)) (ch : Char) : Except String String :=
  if pyIsAlphaChar ch then (letter_to_regional ch).map String.singleton
  else if pyIsDigitChar ch then .ok ((List.lookup ch digit).getD (String.singleton ch))
  else .ok (String.singleton ch)

/-- Sequence a fallible map over a list, propagating the first error
(the shape of a Python `for` loop that appends to an accumulator). -/
def exceptMap (f : Char → Except String String) : List Char → Except String (List String)
  | [] => .ok []
  | c :: l => do
    let s ← f c
    let rest ← exceptMap f l
    .ok (s :: rest)

/-- `translate_token` of the source.  Resolution order: word-table hit on
the lowercased token; all-digits token; single alphabetic character
(`len(token) == 1 and token.isalpha()`, here exposed by matching on the
character list); character-wise fallback. -/
def translate_token (T : Tables) (token : String) : Except String String :=
  match List.lookup (pyStrLower token) T.word with
  | some e => .ok e
  | none =>
    if pyStrIsDigit token then .ok (digitJoin T.digit token)
    else
      match token.data with
      | [c] =>
        if pyIsAlphaChar c then (letter_to_regional c).map String.singleton
        else (exceptMap (translitChar T.digit) token.data).map String.join
      | _ => (exceptMap (translitChar T.digit) token.data).map String.join

/-- The tokenizing regex `\w+|[^\w\s]` of the source, as the left-to-right
scan performed by `re.findall`: maximal runs of word characters become one
token (accumulated in reverse in `cur`), every other non-space character is
a one-character token, and whitespace separates tokens. -/
def tokenizeAux : List Char → List Char → List String
  | [], cur => if cur.isEmpty then [] else [String.mk cur.reverse]
  | c :: rest, cur =>
    if pyIsWordChar c then tokenizeAux rest (c :: cur)
    else
      (if cur.isEmpty then [] else [String.mk cur.reverse]) ++
        (if pyIsSpaceChar c then tokenizeAux rest []
         else String.singleton c :: tokenizeAux rest [])

/-- `TOKEN_RE.findall(sentence)` of the source. -/
def tokenize (s : String) : List String := tokenizeAux s.data []

/-- Python `str.split()` with no separator (used on the phrase keys):
split on whitespace runs, discarding empties. -/
def splitWSAux : List Char → List Char → List String
  | [], cur => if cur.isEmpty then [] else [String.mk cur.reverse]
  | c :: rest, cur =>
    if pyIsSpaceChar c then
      (if cur.isEmpty then [] else [String.mk cur.reverse]) ++ splitWSAux rest []
    else splitWSAux rest (c :: cur)

/-- `phrase.split()` of the source. -/
def phraseTokens (phr : String) : List String := splitWSAux phr.data []

/-- The per-phrase test of the scan in `translate_sentence`: with
`L = len(phrase_tokens)`, both `i + L <= len(tokens)` and
`" ".join(t.lower() for t in tokens[i:i+L]) == phrase`, stated over the
token suffix `tokens[i:]`. -/
def phraseMatches (phr : String) (toks : List String) : Bool :=
  decide ((phraseTokens phr).length ≤ toks.length) &&
    (String.intercalate " " ((toks.take (phraseTokens phr).length).map pyStrLower) == phr)

/-- The `for phrase in PHRASE_EMOJI` loop of `translate_sentence`, carrying
the accumulator `(matched_phrase, max_phrase_len)` and updating it whenever
a phrase matches with strictly greater token count. -/
def phraseScan (toks : List String) :
    List (String × String) → Option String → Nat → Option String × Nat
  | [], best, bestLen => (best, bestLen)
  | (phr, _) :: rest, best, bestLen =>
    if phraseMatches phr toks && decide (bestLen < (phraseTokens phr).length) then
      phraseScan toks rest (some phr) (phraseTokens phr).length
    else phraseScan toks rest best bestLen

/-- The phrase-matching step at one cursor position, on the token suffix
starting there: the loop above run from the initial accumulator
`(None, 0)`. -/
def matchPhraseAt (T : Tables) (toks : List String) : Option String × Nat :=
  phraseScan toks T.phrase none 0

/-- The cursor loop of `translate_sentence` over the remaining token
suffix: on a phrase match the emoji of the phrase is emitted and the cursor
advances past the `L` matched tokens (`L ≥ 1` whenever a match is
reported, see `phraseScan_pos` below, so dropping `L` tokens from
`tok :: rest` is dropping `L - 1` from `rest`); otherwise the single token
is translated and the cursor advances by one (the if/else of source lines
159-163 calls `translate_token` in both branches, so it collapses to one
call). -/
def translateLoop (T : Tables) (toks : List String) : Except String (List String) :=
  match toks with
  | [] => .ok []
  | tok :: rest =>
    match matchPhraseAt T (tok :: rest) with
    | (some p, L) =>
      (translateLoop T (List.drop (L - 1) rest)).map
        (fun tail => (List.lookup p T.phrase).getD "" :: tail)
    | (none, _) => do
      let piece ← translate_token T tok
      (translateLoop T rest).map (fun tail => piece :: tail)
termination_by toks.length
decreasing_by
  all_goals simp only [List.length_drop, List.length_cons]
  all_goals omega

/-- The six punctuation characters of the final `re.sub` pattern
`\s+([?.!,:;])`. -/
def isPunct6 (c : Char) : Bool :=
  c == '?' || c == '.' || c == '!' || c == ',' || c == ':' || c == ';'

/-- The final `re.sub(r"\s+([?.!,:;])", r"\1", out)` of `translate_sentence`,
as the left-to-right scan of the regex engine, carrying the pending
whitespace run in reverse in `ws`: a maximal whitespace run followed by one
of the six punctuation characters is replaced by that character alone (no
match can start strictly inside a run, since every suffix of the run is
followed by the same character); any other whitespace run is emitted
unchanged, as is a trailing run. -/
def subSpacePunctAux : List Char → List Char → List Char
  | [], ws => ws.reverse
  | c :: rest, ws =>
    if pyIsSpaceChar c then subSpacePunctAux rest (c :: ws)
    else if isPunct6 c && !ws.isEmpty then c :: subSpacePunctAux rest []
    else ws.reverse ++ c :: subSpacePunctAux rest []

/-- String form of the final substitution. -/
def pySubSpacePunct (s : String) : String := String.mk (subSpacePunctAux s.data [])

/-- Case-insensitive match of the (already lowercase) pattern against a
prefix of the text, as `re.IGNORECASE` compares on the modelled range. -/
def ciPrefix : List Char → List Char → Bool
  | [], _ => true
  | _ :: _, [] => false
  | p :: ps, c :: cs => (pyCharLower p == pyCharLower c) && ciPrefix ps cs

/-- `re.sub(re.escape(phrase), rep, text, flags=re.IGNORECASE)` for a
literal pattern: replace every leftmost non-overlapping case-insensitive
occurrence, resuming after the replaced stretch. -/
def ireplaceAux (pat rep : List Char) (text : List Char) : List Char :=
  match text with
  | [] => []
  | c :: rest =>
    if ciPrefix pat (c :: rest) then
      rep ++ ireplaceAux pat rep (List.drop (pat.length - 1) rest)
    else c :: ireplaceAux pat rep rest
termination_by text.length
decreasing_by
  all_goals simp only [List.length_drop, List.length_cons]
  all_goals omega

/-- Stable insertion of a string into a length-sorted (descending) list,
passing over all entries whose length is at least that of the new one. -/
def insertLenDesc (x : String) : List String → List String
  | [] => [x]
  | y :: ys => if y.length < x.length then x :: y :: ys else y :: insertLenDesc x ys

/-- `sorted(keys, key=len, reverse=True)`: a stable descending sort by
string length. -/
def sortLenDesc (l : List String) : List String :=
  l.foldl (fun acc x => insertLenDesc x acc) []

/-- The pre-pass of `translate_sentence` (lines 130-132 of the source):
lowercase the sentence, then for each phrase key in descending length
order substitute its emoji case-insensitively.  The result is bound to the
local variable `lowered`, which the rest of the function never reads. -/
def prepass (phraseTable : List (String × String)) (s : String) : String :=
  (sortLenDesc (phraseTable.map Prod.fst)).foldl
    (fun acc phr =>
      String.mk
        (ireplaceAux (pyStrLower phr).data ((List.lookup phr phraseTable).getD "").data
          acc.data))
    (pyStrLower s)

/-- `translate_sentence` of the source, over an explicit table state:
compute the (unused) pre-pass, tokenize the original sentence, run the
cursor loop, join with single spaces, and strip whitespace before
punctuation. -/
def translate_sentenceT (T : Tables) (sentence : String) : Except String String :=
  let _lowered := prepass T.phrase sentence
  (translateLoop T (tokenize sentence)).map
    (fun pieces => pySubSpacePunct (String.intercalate " " pieces))

/-- `translate_sentence` of the source, over the tables as initialised at
module load. -/
def translate_sentence (sentence : String) : Except String String :=
  translate_sentenceT initTables sentence

/-- The variant of the assembler described by the spec (§4.5): only the
token-cursor phrase scan, with no lowercased pre-pass substitution. -/
def translate_sentence_specScan (sentence : String) : Except String String :=
  (translateLoop initTables (tokenize sentence)).map
    (fun pieces => pySubSpacePunct (String.intercalate " " pieces))

/-- One call of `translate_sentence` against the module state: the source
assigns to no module-level name (the tables are only read), so a call
returns the table state unchanged alongside its output. -/
def callTranslate (st : Tables) (s : String) : Except String String × Tables :=
  (translate_sentenceT st s, st)

/-- A sequence of calls with the intermediate table states threaded
through explicitly. -/
def runCalls (st : Tables) : List String → List (Except String String) × Tables
  | [] => ([], st)
  | s :: rest =>
    ((callTranslate st s).1 :: (runCalls (callTranslate st s).2 rest).1,
      (runCalls (callTranslate st s).2 rest).2)

/-- An adjacent pair is acceptable when it is not a whitespace character
directly followed by one of the six punctuation characters. -/
def okPair (a b : Char) : Bool := !(pyIsSpaceChar a && isPunct6 b)

/-- No whitespace character is directly followed by one of the six
punctuation characters. -/
def noSpaceBeforePunct : List Char → Bool
  | a :: b :: rest => okPair a b && noSpaceBeforePunct (b :: rest)
  | _ => true


/-! ### Helper lemmas -/

theorem lookup_mem {α β : Type} [BEq α] [LawfulBEq α] {k : α} {v : β} :
    ∀ {l : List (α × β)}, List.lookup k l = some v → (k, v) ∈ l := by
  intro l
  induction l with
  | nil => intro h; simp [List.lookup] at h
  | cons hd tl ih =>
    obtain ⟨a, b⟩ := hd
    intro h
    rw [List.lookup] at h
    by_cases hk : k == a
    · simp [hk] at h
      simp [eq_of_beq hk, h]
    · simp [hk] at h
      exact List.mem_cons_of_mem _ (ih h)

theorem exceptOk_map {α β : Type} (f : α → β) (a : α) :
    (Except.ok a : Except String α).map f = .ok (f a) := rfl

theorem exceptErr_map {α β : Type} (f : α → β) (e : String) :
    (Except.error e : Except String α).map f = .error e := rfl

theorem translateLoop_nil (T : Tables) : translateLoop T [] = .ok [] := by
  unfold translateLoop
  rfl

theorem translateLoop_matched (T : Tables) (tok : String) (rest : List String) (p : String)
    (L : Nat) (h : matchPhraseAt T (tok :: rest) = (some p, L)) :
    translateLoop T (tok :: rest) =
      (translateLoop T (List.drop (L - 1) rest)).map
        (fun tail => (List.lookup p T.phrase).getD "" :: tail) := by
  rw [translateLoop, h]

theorem translateLoop_unmatched (T : Tables) (tok : String) (rest : List String) (n : Nat)
    (h : matchPhraseAt T (tok :: rest) = (none, n)) :
    translateLoop T (tok :: rest) = (do
      let piece ← translate_token T tok
      (translateLoop T rest).map (fun tail => piece :: tail)) := by
  rw [translateLoop, h]

theorem translate_sentenceT_eq (T : Tables) (s : String) :
    translate_sentenceT T s =
      (translateLoop T (tokenize s)).map
        (fun pieces => pySubSpacePunct (String.intercalate " " pieces)) := rfl

/-- The accumulator length never decreases along the phrase loop. -/
theorem phraseScan_acc_ge (toks : List String) :
    ∀ (table : List (String × String)) (best : Option String) (bestLen : Nat),
      bestLen ≤ (phraseScan toks table best bestLen).2 := by
  intro table
  induction table with
  | nil => intro best bestLen; simp [phraseScan]
  | cons hd tl ih =>
    obtain ⟨phr, e⟩ := hd
    intro best bestLen
    rw [phraseScan]
    split
    · rename_i hcond
      simp only [Bool.and_eq_true, decide_eq_true_eq] at hcond
      exact le_trans (le_of_lt hcond.2) (ih _ _)
    · exact ih _ _

/-- Once the accumulator holds a phrase, the loop reports a phrase. -/
theorem phraseScan_keeps_some (toks : List String) :
    ∀ (table : List (String × String)) (p : String) (bestLen : Nat),
      ∃ q L, phraseScan toks table (some p) bestLen = (some q, L) := by
  intro table
  induction table with
  | nil => intro p bestLen; exact ⟨p, bestLen, rfl⟩
  | cons hd tl ih =>
    obtain ⟨phr, e⟩ := hd
    intro p bestLen
    rw [phraseScan]
    split
    · exact ih _ _
    · exact ih _ _

/-- A reported length is positive, provided an empty accumulator means
length zero (as in the initial accumulator `(None, 0)`). -/
theorem phraseScan_pos (toks : List String) :
    ∀ (table : List (String × String)) (best : Option String) (bestLen : Nat),
      (best.isSome → 1 ≤ bestLen) →
      ∀ q L, phraseScan toks table best bestLen = (some q, L) → 1 ≤ L := by
  intro table
  induction table with
  | nil =>
    intro best bestLen hinv q L h
    rw [phraseScan] at h
    cases h
    exact hinv rfl
  | cons hd tl ih =>
    obtain ⟨phr, e⟩ := hd
    intro best bestLen hinv q L h
    rw [phraseScan] at h
    split at h
    · rename_i hcond
      simp only [Bool.and_eq_true, decide_eq_true_eq] at hcond
      exact ih _ _ (fun _ => by omega) q L h
    · exact ih _ _ hinv q L h

/-- Soundness of the phrase loop: a reported phrase matches the token
suffix, the reported length is its token count, and the phrase comes from
the table (or was already in the accumulator). -/
theorem phraseScan_sound (toks : List String) :
    ∀ (table : List (String × String)) (best : Option String) (bestLen : Nat),
      (∀ p, best = some p →
        phraseMatches p toks = true ∧ (phraseTokens p).length = bestLen) →
      ∀ q L, phraseScan toks table best bestLen = (some q, L) →
        phraseMatches q toks = true ∧ (phraseTokens q).length = L ∧
          (q ∈ table.map Prod.fst ∨ best = some q) := by
  intro table
  induction table with
  | nil =>
    intro best bestLen hbest q L h
    rw [phraseScan] at h
    cases h
    exact ⟨(hbest q rfl).1, (hbest q rfl).2, Or.inr rfl⟩
  | cons hd tl ih =>
    obtain ⟨phr, e⟩ := hd
    intro best bestLen hbest q L h
    rw [phraseScan] at h
    split at h
    · rename_i hcond
      simp only [Bool.and_eq_true, decide_eq_true_eq] at hcond
      have h2 := ih (some phr) (phraseTokens phr).length
        (fun p hp => by cases hp; exact ⟨hcond.1, rfl⟩) q L h
      rcases h2 with ⟨hm, hl, hmem | hacc⟩
      · exact ⟨hm, hl, Or.inl (List.mem_cons_of_mem _ hmem)⟩
      · cases hacc
        exact ⟨hm, hl, Or.inl (by simp)⟩
    · have h2 := ih best bestLen hbest q L h
      rcases h2 with ⟨hm, hl, hmem | hacc⟩
      · exact ⟨hm, hl, Or.inl (List.mem_cons_of_mem _ hmem)⟩
      · exact ⟨hm, hl, Or.inr hacc⟩

/-- Maximality of the phrase loop: the reported length dominates the token
count of every matching phrase of the table. -/
theorem phraseScan_max (toks : List String) :
    ∀ (table : List (String × String)) (best : Option String) (bestLen : Nat)
      (q : String), q ∈ table.map Prod.fst → phraseMatches q toks = true →
        (phraseTokens q).length ≤ (phraseScan toks table best bestLen).2 := by
  intro table
  induction table with
  | nil => intro best bestLen q hq; simp at hq
  | cons hd tl ih =>
    obtain ⟨phr, e⟩ := hd
    intro best bestLen q hq hm
    simp only [List.map_cons, List.mem_cons] at hq
    rw [phraseScan]
    rcases hq with hq | hq
    · subst hq
      split
      · rename_i hcond
        simp only [Bool.and_eq_true, decide_eq_true_eq] at hcond
        exact phraseScan_acc_ge toks tl (some q) _
      · rename_i hcond
        simp only [hm, Bool.true_and, Bool.and_eq_true, decide_eq_true_eq, true_and] at hcond
        have h3 := phraseScan_acc_ge toks tl best bestLen
        omega
    · split
      · exact ih _ _ q hq hm
      · exact ih _ _ q hq hm

/-- Completeness of the phrase loop: if some table phrase with at least one
word matches, the loop reports a phrase (the invariant relates an empty
accumulator to length zero, as initially). -/
theorem phraseScan_complete (toks : List String) :
    ∀ (table : List (String × String)) (best : Option String) (bestLen : Nat),
      (best = none → bestLen = 0) →
      ∀ q, q ∈ table.map Prod.fst → phraseMatches q toks = true →
        1 ≤ (phraseTokens q).length →
        ∃ p L, phraseScan toks table best bestLen = (some p, L) := by
  intro table
  induction table with
  | nil => intro best bestLen hinv q hq; simp at hq
  | cons hd tl ih =>
    obtain ⟨phr, e⟩ := hd
    intro best bestLen hinv q hq hm hL
    simp only [List.map_cons, List.mem_cons] at hq
    rw [phraseScan]
    rcases hq with hq | hq
    · subst hq
      split
      · exact phraseScan_keeps_some toks tl q _
      · rename_i hcond
        simp only [hm, Bool.true_and, Bool.and_eq_true, decide_eq_true_eq, true_and] at hcond
        have hb : ∃ p0, best = some p0 := by
          cases best with
          | none => exact absurd (hinv rfl) (by omega)
          | some p0 => exact ⟨p0, rfl⟩
        obtain ⟨p0, hp0⟩ := hb
        subst hp0
        exact phraseScan_keeps_some toks tl p0 bestLen
    · split
      · exact phraseScan_keeps_some toks tl phr _
      · exact ih best bestLen hinv q hq hm hL

theorem translateLoop_step_ok (T : Tables) (tok : String) (rest : List String) (piece : String)
    (n : Nat) (h1 : matchPhraseAt T (tok :: rest) = (none, n))
    (h2 : translate_token T tok = .ok piece) (rs : List String)
    (h3 : translateLoop T rest = .ok rs) :
    translateLoop T (tok :: rest) = .ok (piece :: rs) := by
  rw [translateLoop, h1, h2, h3]
  rfl

theorem translateLoop_step_phrase (T : Tables) (tok : String) (rest : List String) (p : String)
    (L : Nat) (h1 : matchPhraseAt T (tok :: rest) = (some p, L)) (rs : List String)
    (h3 : translateLoop T (List.drop (L - 1) rest) = .ok rs) :
    translateLoop T (tok :: rest) = .ok ((List.lookup p T.phrase).getD "" :: rs) := by
  rw [translateLoop_matched T tok rest p L h1, h3]
  rfl

theorem translateLoop_step_err (T : Tables) (tok : String) (rest : List String) (n : Nat)
    (e : String) (h1 : matchPhraseAt T (tok :: rest) = (none, n))
    (h2 : translate_token T tok = .error e) :
    translateLoop T (tok :: rest) = .error e := by
  rw [translateLoop, h1, h2]
  rfl

theorem translate_sentence_eq (s : String) :
    translate_sentence s =
      (translateLoop initTables (tokenize s)).map
        (fun pieces => pySubSpacePunct (String.intercalate " " pieces)) := rfl

theorem intercalate_single (e : String) : String.intercalate " " [e] = e := by
  simp [String.intercalate, String.intercalate.go]

/-! ### Character-class lemmas -/

theorem ascii_letter_word {c : Char}
    (h : isAsciiUpperChar c = true ∨ isAsciiLowerChar c = true) : pyIsWordChar c = true := by
  rcases h with h | h <;> simp [pyIsWordChar, pyIsAlphaChar, h]

theorem pyCharLower_digit {c : Char} (h : pyIsDigitChar c = true) : pyCharLower c = c := by
  have hA : (isAsciiUpperChar c || isLatin1UpperChar c) = false := by
    simp only [pyIsDigitChar, isAsciiDigitChar, Bool.or_eq_true, Bool.and_eq_true,
      decide_eq_true_eq, beq_iff_eq] at h
    simp only [isAsciiUpperChar, isLatin1UpperChar, Bool.or_eq_false_iff,
      Bool.and_eq_false_iff, decide_eq_false_iff_not, Bool.not_eq_true, beq_eq_false_iff_ne,
      ne_eq]
    omega
  simp [pyCharLower, hA]

theorem map_id_of_fix {l : List Char} {f : Char → Char} (h : ∀ a ∈ l, f a = a) :
    l.map f = l := by
  induction l with
  | nil => rfl
  | cons a as ih => simp [h a (by simp), ih (fun x hx => h x (List.mem_cons_of_mem _ hx))]

theorem pyStrLower_digit {t : String} (h : pyStrIsDigit t = true) : pyStrLower t = t := by
  simp only [pyStrIsDigit, Bool.and_eq_true, List.all_eq_true] at h
  unfold pyStrLower
  rw [map_id_of_fix (fun a ha => pyCharLower_digit (h.2 a ha))]

/-- No key of the word table is an all-digit string. -/
theorem word_keys_not_digit : ∀ k ∈ WORD_EMOJI.map Prod.fst, pyStrIsDigit k = false := by
  decide

theorem digit_lookup_none {t : String} (h : pyStrIsDigit t = true) :
    List.lookup (pyStrLower t) WORD_EMOJI = none := by
  cases hl : List.lookup (pyStrLower t) WORD_EMOJI with
  | none => rfl
  | some e =>
    have hm := lookup_mem hl
    rw [pyStrLower_digit h] at hm
    have hk : t ∈ WORD_EMOJI.map Prod.fst := List.mem_map.mpr ⟨(t, e), hm, rfl⟩
    have h2 := word_keys_not_digit t hk
    rw [h] at h2
    cases h2

/-! ### Totality off ß -/

theorem pyCharUpper_single {c : Char} (h : c.toNat ≠ 0xDF) :
    pyCharUpper c = [pyCharUpper1 c] := by
  simp [pyCharUpper, h]

theorem letter_to_regional_ok (c : Char) (h : c.toNat ≠ 0xDF) :
    ∃ u, letter_to_regional c = .ok u := by
  unfold letter_to_regional
  by_cases ha : pyIsAlphaChar c
  · rw [if_neg (by simp [ha]), pyCharUpper_single h]
    exact ⟨_, rfl⟩
  · rw [if_pos (by simp [Bool.not_eq_true _ ▸ ha])]
    exact ⟨c, rfl⟩

theorem singleton_ne_empty (u : Char) : String.singleton u ≠ "" := by
  simp [String.singleton, String.ext_iff]

theorem translitChar_ok (digit : List (Char × String)) (c : Char) (h : c.toNat ≠ 0xDF) :
    ∃ s, translitChar digit c = .ok s := by
  unfold translitChar
  by_cases ha : pyIsAlphaChar c
  · obtain ⟨u, hu⟩ := letter_to_regional_ok c h
    rw [if_pos ha, hu]
    exact ⟨_, rfl⟩
  · rw [if_neg ha]
    by_cases hd : pyIsDigitChar c
    · rw [if_pos hd]
      exact ⟨_, rfl⟩
    · rw [if_neg hd]
      exact ⟨_, rfl⟩

/-- Every value of the keycap table is nonempty. -/
theorem keycap_values_nonempty : ∀ p ∈ DIGIT_KEYCAP, p.2 ≠ "" := by decide

theorem translitChar_nonempty (c : Char) (h : c.toNat ≠ 0xDF) :
    ∃ s, translitChar DIGIT_KEYCAP c = .ok s ∧ s ≠ "" := by
  unfold translitChar
  by_cases ha : pyIsAlphaChar c
  · obtain ⟨u, hu⟩ := letter_to_regional_ok c h
    rw [if_pos ha, hu]
    exact ⟨_, rfl, singleton_ne_empty u⟩
  · rw [if_neg ha]
    by_cases hd : pyIsDigitChar c
    · rw [if_pos hd]
      refine ⟨_, rfl, ?_⟩
      cases hl : List.lookup c DIGIT_KEYCAP with
      | none => simp [singleton_ne_empty c]
      | some v => simpa using keycap_values_nonempty (c, v) (lookup_mem hl)
    · rw [if_neg hd]
      exact ⟨_, rfl, singleton_ne_empty c⟩

theorem exceptMap_all_ok (f : Char → Except String String) :
    ∀ l : List Char, (∀ c ∈ l, ∃ s, f c = .ok s) → ∃ ps, exceptMap f l = .ok ps := by
  intro l
  induction l with
  | nil => intro _; exact ⟨[], rfl⟩
  | cons c cs ih =>
    intro h
    obtain ⟨s, hs⟩ := h c (by simp)
    obtain ⟨ps, hps⟩ := ih (fun x hx => h x (List.mem_cons_of_mem _ hx))
    exact ⟨s :: ps, by rw [exceptMap, hs, hps]; rfl⟩

theorem exceptMap_pieces (f : Char → Except String String) :
    ∀ l : List Char, (∀ c ∈ l, ∃ s, f c = .ok s ∧ s ≠ "") →
      ∃ ps, exceptMap f l = .ok ps ∧ ps.length = l.length ∧ ∀ p ∈ ps, p ≠ "" := by
  intro l
  induction l with
  | nil => intro _; exact ⟨[], rfl, rfl, by simp⟩
  | cons c cs ih =>
    intro h
    obtain ⟨s, hs, hse⟩ := h c (by simp)
    obtain ⟨ps, hps, hlen, hne⟩ := ih (fun x hx => h x (List.mem_cons_of_mem _ hx))
    refine ⟨s :: ps, by rw [exceptMap, hs, hps]; rfl, by simp [hlen], ?_⟩
    intro p hp
    rcases List.mem_cons.mp hp with rfl | hp
    · exact hse
    · exact hne p hp

theorem translate_token_word (T : Tables) (t e : String)
    (h : List.lookup (pyStrLower t) T.word = some e) : translate_token T t = .ok e := by
  unfold translate_token
  rw [h]

theorem translate_token_digit (T : Tables) (t : String)
    (h : List.lookup (pyStrLower t) T.word = none) (hd : pyStrIsDigit t = true) :
    translate_token T t = .ok (digitJoin T.digit t) := by
  unfold translate_token
  rw [h, if_pos hd]

theorem translate_token_single_alpha (T : Tables) (t : String) (c : Char)
    (h : List.lookup (pyStrLower t) T.word = none) (hd : pyStrIsDigit t = false)
    (hc : t.data = [c]) (ha : pyIsAlphaChar c = true) :
    translate_token T t = (letter_to_regional c).map String.singleton := by
  unfold translate_token
  rw [h, if_neg (by simp [hd]), hc]
  simp [ha]

theorem translate_token_fallback_single (T : Tables) (t : String) (c : Char)
    (h : List.lookup (pyStrLower t) T.word = none) (hd : pyStrIsDigit t = false)
    (hc : t.data = [c]) (ha : pyIsAlphaChar c = false) :
    translate_token T t = (exceptMap (translitChar T.digit) t.data).map String.join := by
  unfold translate_token
  rw [h, if_neg (by simp [hd]), hc]
  simp [ha]

theorem translate_token_fallback_multi (T : Tables) (t : String)
    (h : List.lookup (pyStrLower t) T.word = none) (hd : pyStrIsDigit t = false)
    (hc : ∀ c : Char, t.data ≠ [c]) :
    translate_token T t = (exceptMap (translitChar T.digit) t.data).map String.join := by
  unfold translate_token
  rw [h, if_neg (by simp [hd])]
  match hdata : t.data with
  | [] => rfl
  | [c] => exact absurd hdata (hc c)
  | c1 :: c2 :: cs => rfl

theorem translate_token_ok (t : String) (ht : ∀ c ∈ t.data, c.toNat ≠ 0xDF) :
    ∃ r, translate_token initTables t = .ok r := by
  cases hl : List.lookup (pyStrLower t) initTables.word with
  | some e => exact ⟨e, translate_token_word _ _ _ hl⟩
  | none =>
    by_cases hd : pyStrIsDigit t
    · exact ⟨_, translate_token_digit _ _ hl hd⟩
    · have hd2 : pyStrIsDigit t = false := by simpa using hd
      rcases hdata : t.data with _ | ⟨c, _ | ⟨c2, cs⟩⟩
      · rw [translate_token_fallback_multi _ _ hl hd2 (by rw [hdata]; intro x; simp), hdata]
        exact ⟨_, rfl⟩
      · by_cases ha : pyIsAlphaChar c
        · obtain ⟨u, hu⟩ := letter_to_regional_ok c (ht c (by rw [hdata]; simp))
          rw [translate_token_single_alpha _ _ c hl hd2 hdata ha, hu]
          exact ⟨_, rfl⟩
        · have ha2 : pyIsAlphaChar c = false := by simpa using ha
          obtain ⟨ps, hps⟩ := exceptMap_all_ok (translitChar initTables.digit) t.data
            (fun x hx => translitChar_ok _ x (ht x hx))
          rw [translate_token_fallback_single _ _ c hl hd2 hdata ha2, hps]
          exact ⟨_, rfl⟩
      · obtain ⟨ps, hps⟩ := exceptMap_all_ok (translitChar initTables.digit) t.data
          (fun x hx => translitChar_ok _ x (ht x hx))
        rw [translate_token_fallback_multi _ _ hl hd2 (by rw [hdata]; intro x; simp), hps]
        exact ⟨_, rfl⟩

theorem translateLoop_ok :
    ∀ toks : List String, (∀ t ∈ toks, ∃ r, translate_token initTables t = .ok r) →
      ∃ rs, translateLoop initTables toks = .ok rs := by
  have main : ∀ (n : Nat) (toks : List String), toks.length ≤ n →
      (∀ t ∈ toks, ∃ r, translate_token initTables t = .ok r) →
      ∃ rs, translateLoop initTables toks = .ok rs := by
    intro n
    induction n with
    | zero =>
      intro toks hlen _
      rw [List.length_eq_zero.mp (Nat.le_zero.mp hlen)]
      exact ⟨[], translateLoop_nil _⟩
    | succ n ih =>
      intro toks hlen h
      match toks with
      | [] => exact ⟨[], translateLoop_nil _⟩
      | tok :: rest =>
        rcases hm : matchPhraseAt initTables (tok :: rest) with ⟨_ | p, L⟩
        · obtain ⟨piece, hpiece⟩ := h tok (by simp)
          obtain ⟨rs, hrs⟩ := ih rest (by simp at hlen; omega)
            (fun t ht => h t (List.mem_cons_of_mem _ ht))
          exact ⟨piece :: rs, translateLoop_step_ok _ _ _ _ _ hm hpiece _ hrs⟩
        · obtain ⟨rs, hrs⟩ := ih (List.drop (L - 1) rest)
            (by simp [List.length_drop] at hlen ⊢; omega)
            (fun t ht => h t (List.mem_cons_of_mem _ (List.drop_subset _ _ ht)))
          exact ⟨_, translateLoop_step_phrase _ _ _ _ _ hm _ hrs⟩
  intro toks h
  exact main toks.length toks le_rfl h

/-! ### Tokenizer lemmas -/

theorem tokenizeAux_all_word :
    ∀ (l cur : List Char), (∀ c ∈ l, pyIsWordChar c = true) → (l ≠ [] ∨ cur ≠ []) →
      tokenizeAux l cur = [String.mk (cur.reverse ++ l)] := by
  intro l
  induction l with
  | nil =>
    intro cur _ hne
    have hc : cur ≠ [] := by
      rcases hne with h | h
      · exact absurd rfl h
      · exact h
    cases cur with
    | nil => exact absurd rfl hc
    | cons a as =>
      rw [tokenizeAux]
      simp
  | cons c rest ih =>
    intro cur hw _
    rw [tokenizeAux, if_pos (hw c (by simp))]
    rw [ih (c :: cur) (fun x hx => hw x (List.mem_cons_of_mem _ hx)) (Or.inr (by simp))]
    simp

theorem tokenize_single {s : String} (hne : s.data ≠ [])
    (hw : ∀ c ∈ s.data, pyIsWordChar c = true) : tokenize s = [s] := by
  unfold tokenize
  rw [tokenizeAux_all_word s.data [] hw (Or.inl hne)]
  rfl

/-- Every character of every token produced by the tokenizer comes from the
scanned text or the pending run. -/
theorem tokenizeAux_chars :
    ∀ (l cur : List Char) (t : String), t ∈ tokenizeAux l cur →
      ∀ c ∈ t.data, c ∈ l ∨ c ∈ cur := by
  intro l
  induction l with
  | nil =>
    intro cur t ht c hc
    rw [tokenizeAux] at ht
    split at ht
    · simp at ht
    · simp at ht
      subst ht
      right
      exact List.mem_reverse.mp hc
  | cons c0 rest ih =>
    intro cur t ht c hc
    rw [tokenizeAux] at ht
    by_cases hwc : pyIsWordChar c0
    · rw [if_pos hwc] at ht
      rcases ih (c0 :: cur) t ht c hc with h | h
      · exact Or.inl (List.mem_cons_of_mem _ h)
      · rcases List.mem_cons.mp h with rfl | h
        · exact Or.inl (by simp)
        · exact Or.inr h
    · rw [if_neg hwc] at ht
      rcases List.mem_append.mp ht with h | h
      · split at h
        · simp at h
        · simp at h
          subst h
          right
          exact List.mem_reverse.mp hc
      · have step : t ∈ tokenizeAux rest [] → c ∈ c0 :: rest ∨ c ∈ cur := by
          intro h2
          rcases ih [] t h2 c hc with h3 | h3
          · exact Or.inl (List.mem_cons_of_mem _ h3)
          · simp at h3
        split at h
        · exact step h
        · rcases List.mem_cons.mp h with rfl | h
          · left
            have : c ∈ [c0] := hc
            simp at this
            simp [this]
          · exact step h

/-- Every character of every token of a tokenized sentence occurs in the
sentence. -/
theorem tokenize_chars {s : String} {t : String} (ht : t ∈ tokenize s) :
    ∀ c ∈ t.data, c ∈ s.data := by
  intro c hc
  rcases tokenizeAux_chars s.data [] t ht c hc with h | h
  · exact h
  · simp at h

/-! ### Punctuation spacing -/

theorem space_not_punct {c : Char} (h : pyIsSpaceChar c = true) : isPunct6 c = false := by
  by_contra hc
  rw [Bool.not_eq_false] at hc
  simp only [isPunct6, Bool.or_eq_true, beq_iff_eq] at hc
  rcases hc with ((((rfl | rfl) | rfl) | rfl) | rfl) | rfl <;> exact absurd h (by decide)

theorem punct_not_space {c : Char} (h : isPunct6 c = true) : pyIsSpaceChar c = false := by
  by_contra hc
  rw [Bool.not_eq_false] at hc
  exact absurd h (by simp [space_not_punct hc])

theorem noSpace_cons {a : Char} {l : List Char} (ha : pyIsSpaceChar a = false)
    (hl : noSpaceBeforePunct l = true) : noSpaceBeforePunct (a :: l) = true := by
  cases l with
  | nil => rfl
  | cons b m =>
    rw [noSpaceBeforePunct]
    simp [okPair, ha, hl]

theorem noSpace_allspace {l : List Char} (h : ∀ c ∈ l, pyIsSpaceChar c = true) :
    noSpaceBeforePunct l = true := by
  induction l with
  | nil => rfl
  | cons a m ih =>
    cases m with
    | nil => rfl
    | cons b m2 =>
      rw [noSpaceBeforePunct]
      have hb := h b (by simp)
      simp [okPair, space_not_punct hb,
        ih (fun x hx => h x (List.mem_cons_of_mem _ hx))]

theorem noSpace_spaces_append {a : Char} {l2 : List Char} :
    ∀ l1 : List Char, (∀ c ∈ l1, pyIsSpaceChar c = true) →
      (l1 ≠ [] → isPunct6 a = false) → pyIsSpaceChar a = false →
      noSpaceBeforePunct (a :: l2) = true →
      noSpaceBeforePunct (l1 ++ a :: l2) = true := by
  intro l1
  induction l1 with
  | nil => intro _ _ _ h4; exact h4
  | cons w m ih =>
    intro h1 h2 h3 h4
    have htail : noSpaceBeforePunct (m ++ a :: l2) = true :=
      ih (fun x hx => h1 x (List.mem_cons_of_mem _ hx))
        (fun hm => h2 (by simp)) h3 h4
    cases m with
    | nil =>
      rw [List.nil_append] at htail
      rw [List.cons_append, List.nil_append, noSpaceBeforePunct]
      simp [okPair, h2 (by simp), htail]
    | cons w2 m2 =>
      rw [List.cons_append, List.cons_append, noSpaceBeforePunct]
      rw [List.cons_append] at htail
      have hw2 := h1 w2 (by simp)
      simp [okPair, space_not_punct hw2, htail]

/-- The output of the final substitution never has a whitespace character
directly followed by one of the six punctuation characters. -/
theorem subSpacePunctAux_ok :
    ∀ (l ws : List Char), (∀ c ∈ ws, pyIsSpaceChar c = true) →
      noSpaceBeforePunct (subSpacePunctAux l ws) = true := by
  intro l
  induction l with
  | nil =>
    intro ws hws
    rw [subSpacePunctAux]
    exact noSpace_allspace (fun c hc => hws c (List.mem_reverse.mp hc))
  | cons c rest ih =>
    intro ws hws
    rw [subSpacePunctAux]
    by_cases hsp : pyIsSpaceChar c
    · rw [if_pos hsp]
      refine ih (c :: ws) ?_
      intro x hx
      rcases List.mem_cons.mp hx with rfl | hx
      · exact hsp
      · exact hws x hx
    · rw [if_neg hsp]
      have hsp2 : pyIsSpaceChar c = false := by simpa using hsp
      by_cases hpw : (isPunct6 c && !ws.isEmpty) = true
      · rw [if_pos hpw]
        exact noSpace_cons (punct_not_space (by simp at hpw; exact hpw.1)) (ih [] (by simp))
      · rw [if_neg hpw]
        refine noSpace_spaces_append ws.reverse
          (fun x hx => hws x (List.mem_reverse.mp hx)) ?_ hsp2
          (noSpace_cons hsp2 (ih [] (by simp)))
        intro hrev
        have hws2 : ws ≠ [] := fun hn => hrev (by simp [hn])
        have hwse : ws.isEmpty = false := by
          cases ws with
          | nil => exact absurd rfl hws2
          | cons a as => rfl
        by_contra hc2
        rw [Bool.not_eq_false] at hc2
        exact hpw (by simp [hc2, hwse])

/-! ### Claims -/

/-- Claim C7: the pre-pass phrase substitution over a fully lowercased copy
of the input, computed at the start of `translate_sentence` and bound to the
local `lowered`, has no effect on the returned value: `translate_sentence`
is extensionally equal to the variant that omits the lowercased pre-pass
and performs only the token-cursor phrase scan. -/
theorem c7_prepass_dead : ∀ s : String, translate_sentence s = translate_sentence_specScan s :=
  fun _ => rfl

/-- Claim C9: `translate_sentence` is a pure function of its input: any
sequence of calls leaves the table state unchanged, and the output of every
call
is `translate_sentenceT` of the initial state at its own input alone — so
two calls with identical inputs, in any order and interleaved with any
other calls, produce identical outputs. -/
theorem c9_purity : ∀ (st : Tables) (inputs : List String),
    runCalls st inputs = (inputs.map (translate_sentenceT st), st) := by
  intro st inputs
  induction inputs with
  | nil => rfl
  | cons s rest ih => simp [runCalls, callTranslate, ih]

/-- Claim C8 counterexample: ß is alphabetic, but `letter_to_regional`
raises a `TypeError` on it — Python uppercases ß to the two-character
string "SS", and `ord` of a two-character string raises — so the function
is not total over alphabetic characters and does raise. -/
theorem c8_counterexample :
    pyIsAlphaChar 'ß' = true ∧
      letter_to_regional 'ß' =
        .error "TypeError: ord() expected a character, but string of length 2 found" := by
  exact ⟨by decide, by decide⟩

/-- Claim C8 (amended): for every alphabetic character whose uppercase form
is a single character u, `letter_to_regional` returns the character at code
point `0x1F1E6 + (u - 'A')` (regional-indicator-A base plus offset of the
uppercase from 'A'), and every non-alphabetic character is returned
unchanged.  Amendment forced by the counterexample: on an alphabetic
character whose uppercase form is not a single character (ß), the function
raises a `TypeError` rather than being total. -/
theorem c8_amended : ∀ c : Char,
    (pyIsAlphaChar c = false → letter_to_regional c = .ok c) ∧
    (∀ u : Char, pyIsAlphaChar c = true → pyCharUpper c = [u] →
      letter_to_regional c =
        .ok (Char.ofNat ((0x1F1E6 + ((u.toNat : Int) - ('A'.toNat : Int))).toNat))) := by
  intro c
  constructor
  · intro h
    unfold letter_to_regional
    rw [if_pos (by simp [h])]
  · intro u ha hu
    unfold letter_to_regional
    rw [if_neg (by simp [ha]), hu]
    rfl

/-- Witness for C8: at the alphabetic 'z' (uppercase 'Z') the regional
indicator 🇿 comes out, and the non-alphabetic '7' is returned unchanged. -/
theorem c8_witness : letter_to_regional 'z' = .ok '🇿' ∧ letter_to_regional '7' = .ok '7' := by
  constructor
  · exact ((c8_amended 'z').2 'Z' (by decide) (by decide)).trans (by decide)
  · exact (c8_amended '7').1 (by decide)

/-- Claim C10: a token that consists entirely of digit characters but
contains a digit outside '0'-'9' (for instance the superscript ²) still
takes the all-digits branch of `translate_token`: each '0'-'9' digit is
replaced by its keycap emoji and every other digit character is left
unchanged by the defaulted lookup `DIGIT_KEYCAP.get(d, d)`, which never
fails. -/
theorem c10_digit_tokens : ∀ t : String, pyStrIsDigit t = true →
    (∃ c ∈ t.data, isAsciiDigitChar c = false) →
    translate_token initTables t = .ok (digitJoin DIGIT_KEYCAP t) := by
  intro t hd _
  exact translate_token_digit initTables t (digit_lookup_none hd) hd

/-- Witness for C10 at "3²": Python regards "3²" as all-digits; the output
keeps ² unchanged and keycaps the 3. -/
theorem c10_witness : translate_token initTables "3²" = .ok "3️⃣²" :=
  (c10_digit_tokens "3²" (by decide) ⟨'²', by decide, by decide⟩).trans (by decide)

/-- Claim C3 counterexample: `translate_token` can fail: on the single
alphabetic token "ß" the regional-indicator branch raises a `TypeError`
instead of producing a string. -/
theorem c3_counterexample :
    translate_token initTables "ß" =
      .error "TypeError: ord() expected a character, but string of length 2 found" := by
  decide

/-- Claim C3 (amended): `translate_token` resolves in first-applicable-wins
order: (1) an exact case-insensitive word-table hit returns the emoji of
that word; (2) a token consisting entirely of digit characters returns the
in-order concatenation of the defaulted keycap lookup of each digit; (3) a token
that is a single alphabetic character is sent through the regional-indicator
computation; (4) otherwise every character is transliterated — alphabetic
through the regional-indicator computation, digit to its defaulted keycap
lookup, any other character unchanged — and on input free of ß this
produces exactly one nonempty piece per character, so no character is
dropped and the function returns a string.  Amendment forced by the
counterexample: the regional-indicator computation raises a `TypeError` on
alphabetic characters whose uppercase form is not a single character (ß in
the modelled range), so "never fails" holds only for ß-free tokens. -/
theorem c3_amended :
    (∀ (T : Tables) (t e : String), List.lookup (pyStrLower t) T.word = some e →
      translate_token T t = .ok e) ∧
    (∀ (T : Tables) (t : String), List.lookup (pyStrLower t) T.word = none →
      pyStrIsDigit t = true → translate_token T t = .ok (digitJoin T.digit t)) ∧
    (∀ (T : Tables) (t : String) (c : Char), List.lookup (pyStrLower t) T.word = none →
      pyStrIsDigit t = false → t.data = [c] → pyIsAlphaChar c = true →
      translate_token T t = (letter_to_regional c).map String.singleton) ∧
    (∀ (T : Tables) (t : String), List.lookup (pyStrLower t) T.word = none →
      pyStrIsDigit t = false → (∀ c : Char, t.data = [c] → pyIsAlphaChar c = false) →
      translate_token T t = (exceptMap (translitChar T.digit) t.data).map String.join) ∧
    (∀ l : List Char, (∀ c ∈ l, c.toNat ≠ 0xDF) →
      ∃ pieces, exceptMap (translitChar DIGIT_KEYCAP) l = .ok pieces ∧
        pieces.length = l.length ∧ ∀ p ∈ pieces, p ≠ "") ∧
    (∀ t : String, (∀ c ∈ t.data, c.toNat ≠ 0xDF) →
      ∃ r, translate_token initTables t = .ok r) := by
  refine ⟨translate_token_word, translate_token_digit, translate_token_single_alpha,
    ?_, ?_, translate_token_ok⟩
  · intro T t h hd hone
    rcases hdata : t.data with _ | ⟨c, _ | ⟨c2, cs⟩⟩
    · rw [← hdata]
      exact translate_token_fallback_multi T t h hd (by rw [hdata]; intro x; simp)
    · rw [← hdata]
      exact translate_token_fallback_single T t c h hd hdata (hone c hdata)
    · rw [← hdata]
      exact translate_token_fallback_multi T t h hd (by rw [hdata]; intro x; simp)
  · intro l hl
    exact exceptMap_pieces _ l (fun c hc => translitChar_nonempty c (hl c hc))

/-- Witness for C3: one instantiation of each branch — word hit "coffee",
all-digit "123", single letter "x", fallback "a1!", and totality on the
ß-free "hey". -/
theorem c3_witness :
    translate_token initTables "coffee" = .ok "☕" ∧
    translate_token initTables "123" = .ok (digitJoin DIGIT_KEYCAP "123") ∧
    translate_token initTables "x" = (letter_to_regional 'x').map String.singleton ∧
    translate_token initTables "a1!" =
      (exceptMap (translitChar DIGIT_KEYCAP) "a1!".data).map String.join ∧
    (∃ r, translate_token initTables "hey" = .ok r) := by
  refine ⟨c3_amended.1 initTables "coffee" "☕" (by decide),
    c3_amended.2.1 initTables "123" (by decide) (by decide),
    c3_amended.2.2.1 initTables "x" 'x' (by decide) (by decide) (by decide) (by decide),
    c3_amended.2.2.2.1 initTables "a1!" (by decide) (by decide) ?_,
    c3_amended.2.2.2.2.2 "hey" (by decide)⟩
  intro c hc
  simp at hc

/-- Claim C1 counterexample: in "I love pizza!" the token "I" is not
translated to its regional-indicator symbol 🇮: its lowercase "i" is a
word-table key, so the word table wins and produces the eye emoji. -/
theorem c1_counterexample :
    translate_token initTables "I" = .ok "👁️" ∧
      letter_to_regional 'I' = .ok '🇮' ∧ ("👁️" : String) ≠ "🇮" := by
  exact ⟨by decide, by decide, by decide⟩

/-- Claim C1 (amended): "I love pizza!" tokenizes to [I, love, pizza, !];
no phrase matches at position 0; "I", "love" and "pizza" are all word-table
hits — the amendment forced by the counterexample: "I" is translated via
the word-table entry for "i" (the eye emoji), not via a regional
indicator; "!" passes through; and the results are assembled with no space
before "!". -/
theorem c1_end_to_end :
    tokenize "I love pizza!" = ["I", "love", "pizza", "!"] ∧
    matchPhraseAt initTables ["I", "love", "pizza", "!"] = (none, 0) ∧
    List.lookup (pyStrLower "I") WORD_EMOJI = some "👁️" ∧
    translate_token initTables "I" = .ok "👁️" ∧
    translate_token initTables "love" = .ok "❤️" ∧
    translate_token initTables "pizza" = .ok "🍕" ∧
    translate_token initTables "!" = .ok "!" ∧
    translate_sentence "I love pizza!" = .ok "👁️ ❤️ 🍕!" := by
  refine ⟨by decide, by decide, by decide, by decide, by decide, by decide, by decide, ?_⟩
  have h3 : translateLoop initTables ["!"] = .ok ["!"] :=
    translateLoop_step_ok initTables "!" [] "!" 0 (by decide) (by decide) [] (translateLoop_nil _)
  have h2 : translateLoop initTables ["pizza", "!"] = .ok ["🍕", "!"] :=
    translateLoop_step_ok initTables "pizza" ["!"] "🍕" 0 (by decide) (by decide) _ h3
  have h1 : translateLoop initTables ["love", "pizza", "!"] = .ok ["❤️", "🍕", "!"] :=
    translateLoop_step_ok initTables "love" ["pizza", "!"] "❤️" 0 (by decide) (by decide) _ h2
  have h0 : translateLoop initTables ["I", "love", "pizza", "!"] =
      .ok ["👁️", "❤️", "🍕", "!"] :=
    translateLoop_step_ok initTables "I" ["love", "pizza", "!"] "👁️" 0 (by decide)
      (by decide) _ h1
  rw [translate_sentence_eq,
    show tokenize "I love pizza!" = ["I", "love", "pizza", "!"] from by decide, h0]
  decide

/-- Claim C2: whenever one or more phrase-table keys match the lowercased
tokens starting at a position (the matcher compares the space-joined
lowercased token slice against the key), the phrase matcher of
`translate_sentence` reports a matching phrase whose token count L is
maximal among all matches there, the loop emits the emoji of that phrase, and
the cursor advances by exactly L tokens; in particular
`translate_sentence "good night"` yields the phrase-table entry for
"good night". -/
theorem c2_longest_match :
    (∀ (toks : List String) (p : String) (L : Nat),
      matchPhraseAt initTables toks = (some p, L) →
        p ∈ PHRASE_EMOJI.map Prod.fst ∧ phraseMatches p toks = true ∧
          (phraseTokens p).length = L ∧
          ∀ q ∈ PHRASE_EMOJI.map Prod.fst, phraseMatches q toks = true →
            (phraseTokens q).length ≤ L) ∧
    (∀ (toks : List String) (q : String), q ∈ PHRASE_EMOJI.map Prod.fst →
      phraseMatches q toks = true → ∃ p L, matchPhraseAt initTables toks = (some p, L)) ∧
    (∀ (tok : String) (rest : List String) (p : String) (L : Nat),
      matchPhraseAt initTables (tok :: rest) = (some p, L) →
        1 ≤ L ∧
          translateLoop initTables (tok :: rest) =
            (translateLoop initTables (List.drop L (tok :: rest))).map
              (fun tail => (List.lookup p PHRASE_EMOJI).getD "" :: tail)) ∧
    translate_sentence "good night" = .ok "🌙😴" := by
  refine ⟨?_, ?_, ?_, ?_⟩
  · intro toks p L h
    obtain ⟨hm, hl, hmem⟩ :=
      phraseScan_sound toks PHRASE_EMOJI none 0 (fun p hp => by cases hp) p L h
    rcases hmem with hmem | hbad
    · refine ⟨hmem, hm, hl, ?_⟩
      intro q hq hqm
      have hmax := phraseScan_max toks PHRASE_EMOJI none 0 q hq hqm
      rw [show phraseScan toks PHRASE_EMOJI none 0 = (some p, L) from h] at hmax
      omega
    · cases hbad
  · intro toks q hq hqm
    have hlen : ∀ k ∈ PHRASE_EMOJI.map Prod.fst, 1 ≤ (phraseTokens k).length := by decide
    exact phraseScan_complete toks PHRASE_EMOJI none 0 (fun _ => rfl) q hq hqm (hlen q hq)
  · intro tok rest p L h
    have hpos : 1 ≤ L :=
      phraseScan_pos (tok :: rest) PHRASE_EMOJI none 0 (fun hs => by simp at hs) p L h
    refine ⟨hpos, ?_⟩
    obtain ⟨k, rfl⟩ : ∃ k, L = k + 1 := ⟨L - 1, by omega⟩
    rw [List.drop_succ_cons]
    simpa using translateLoop_matched initTables tok rest p (k + 1) h
  · have h0 : translateLoop initTables ["good", "night"] = .ok ["🌙😴"] :=
      (translateLoop_step_phrase initTables "good" ["night"] "good night" 2 (by decide) []
        (translateLoop_nil _)).trans (by decide)
    rw [translate_sentence_eq,
      show tokenize "good night" = ["good", "night"] from by decide, h0]
    decide

/-- Witness for C2 at the token list of "good night": the matcher reports
"good night" (a matching table key of maximal token count 2), a match
exists, and the loop emits its emoji while advancing the cursor by 2. -/
theorem c2_witness :
    ("good night" ∈ PHRASE_EMOJI.map Prod.fst ∧
        phraseMatches "good night" ["good", "night"] = true ∧
        (phraseTokens "good night").length = 2 ∧
        ∀ q ∈ PHRASE_EMOJI.map Prod.fst, phraseMatches q ["good", "night"] = true →
          (phraseTokens q).length ≤ 2) ∧
      (∃ p L, matchPhraseAt initTables ["good", "night"] = (some p, L)) ∧
      (1 ≤ 2 ∧
        translateLoop initTables ["good", "night"] =
          (translateLoop initTables (List.drop 2 ["good", "night"])).map
            (fun tail => (List.lookup "good night" PHRASE_EMOJI).getD "" :: tail)) := by
  exact ⟨c2_longest_match.1 ["good", "night"] "good night" 2 (by decide),
    c2_longest_match.2.1 ["good", "night"] "good night" (by decide) (by decide),
    c2_longest_match.2.2.1 "good" ["night"] "good night" 2 (by decide)⟩

/-- Claim C4: for every word of the word table, `translate_sentence`
applied to that word alone, in any letter casing (an ASCII-letter string
whose lowercasing is a table key), returns exactly the emoji of that word. -/
theorem c4_word_table : ∀ (s e : String), s.data ≠ [] →
    (∀ c ∈ s.data, isAsciiUpperChar c = true ∨ isAsciiLowerChar c = true) →
    List.lookup (pyStrLower s) WORD_EMOJI = some e →
    translate_sentence s = .ok e := by
  intro s e hne hcase hl
  have htok : tokenize s = [s] :=
    tokenize_single hne (fun c hc => ascii_letter_word (hcase c hc))
  have hloop : translateLoop initTables [s] = .ok [e] :=
    translateLoop_step_ok initTables s [] e 0 rfl (translate_token_word initTables s e hl) []
      (translateLoop_nil _)
  rw [translate_sentence_eq, htok, hloop]
  show Except.ok (pySubSpacePunct (String.intercalate " " [e])) = Except.ok e
  rw [intercalate_single]
  have hval : ∀ pr ∈ WORD_EMOJI, pySubSpacePunct pr.2 = pr.2 := by decide
  rw [hval (pyStrLower s, e) (lookup_mem hl)]

/-- Witness for C4 at the mixed casing "LoVe" of the table key "love". -/
theorem c4_witness : translate_sentence "LoVe" = .ok "❤️" :=
  c4_word_table "LoVe" "❤️" (by decide) (by decide) (by decide)

/-- Claim C5: `translate_sentence` joins the per-token translations with
single spaces and then, in one pass over the fully joined string, removes
the whitespace immediately preceding each of `? . ! , : ;` — the final
output never contains a whitespace character directly followed by one of
those six characters, "word !" becomes "word!", and the output of
`translate_sentence "Dance party!"` has no space between the party emoji
and the exclamation mark. -/
theorem c5_spacing :
    (∀ (T : Tables) (s : String), translate_sentenceT T s =
      (translateLoop T (tokenize s)).map
        (fun pieces => pySubSpacePunct (String.intercalate " " pieces))) ∧
    (∀ out : String, noSpaceBeforePunct (pySubSpacePunct out).data = true) ∧
    pySubSpacePunct "word !" = "word!" ∧
    translate_sentence "Dance party!" = .ok "💃 🎉!" := by
  refine ⟨fun T s => rfl, ?_, by decide, ?_⟩
  · intro out
    exact subSpacePunctAux_ok out.data [] (by simp)
  · have h3 : translateLoop initTables ["!"] = .ok ["!"] :=
      translateLoop_step_ok initTables "!" [] "!" 0 (by decide) (by decide) []
        (translateLoop_nil _)
    have h2 : translateLoop initTables ["party", "!"] = .ok ["🎉", "!"] :=
      translateLoop_step_ok initTables "party" ["!"] "🎉" 0 (by decide) (by decide) _ h3
    have h1 : translateLoop initTables ["Dance", "party", "!"] = .ok ["💃", "🎉", "!"] :=
      translateLoop_step_ok initTables "Dance" ["party", "!"] "💃" 0 (by decide) (by decide)
        _ h2
    rw [translate_sentence_eq,
      show tokenize "Dance party!" = ["Dance", "party", "!"] from by decide, h1]
    decide

/-- Claim C6 counterexample: `translate_sentence` does not return a string
for every Unicode input: on "ß" the single alphabetic token reaches the
regional-indicator computation, which raises a `TypeError` (Python
uppercases ß to the two-character "SS"). -/
theorem c6_counterexample :
    translate_sentence "ß" =
      .error "TypeError: ord() expected a character, but string of length 2 found" := by
  have h1 : translateLoop initTables ["ß"] =
      .error "TypeError: ord() expected a character, but string of length 2 found" :=
    translateLoop_step_err initTables "ß" [] 0 _ (by decide) (by decide)
  rw [translate_sentence_eq, show tokenize "ß" = ["ß"] from by decide, h1]
  rfl

/-- Claim C6 (amended): `translate_sentence` maps the empty string to the
empty string; on every input containing no ß it terminates and returns a
string, including pure-whitespace and pure-punctuation inputs; and the
cursor loop always advances by at least one token per step.  Amendment
forced by the counterexample: on inputs containing an alphabetic character
whose uppercase form is not a single character (ß in the modelled range)
the translation raises a `TypeError` instead of returning a string. -/
theorem c6_totality :
    translate_sentence "" = .ok "" ∧
    (∀ s : String, (∀ c ∈ s.data, c.toNat ≠ 0xDF) → ∃ out, translate_sentence s = .ok out) ∧
    (∀ (tok : String) (rest : List String), ∃ toks2 : List String,
      toks2.length < (tok :: rest).length ∧
        ((∃ piece, translateLoop initTables (tok :: rest) =
            (translateLoop initTables toks2).map (fun tail => piece :: tail)) ∨
          ∃ e, translateLoop initTables (tok :: rest) = .error e)) ∧
    translate_sentence "   " = .ok "" ∧
    translate_sentence "?!" = .ok "?!" := by
  refine ⟨?_, ?_, ?_, ?_, ?_⟩
  · rw [translate_sentence_eq, show tokenize "" = [] from rfl, translateLoop_nil]
    rfl
  · intro s hs
    obtain ⟨rs, hrs⟩ := translateLoop_ok (tokenize s)
      (fun t ht => translate_token_ok t (fun c hc => hs c (tokenize_chars ht c hc)))
    exact ⟨_, by rw [translate_sentence_eq, hrs]; rfl⟩
  · intro tok rest
    rcases hm : matchPhraseAt initTables (tok :: rest) with ⟨_ | p, L⟩
    · cases htk : translate_token initTables tok with
      | ok piece =>
        refine ⟨rest, by simp, Or.inl ⟨piece, ?_⟩⟩
        rw [translateLoop_unmatched _ _ _ _ hm, htk]
        rfl
      | error e =>
        exact ⟨rest, by simp, Or.inr ⟨e, translateLoop_step_err _ _ _ _ _ hm htk⟩⟩
    · refine ⟨List.drop (L - 1) rest, ?_,
        Or.inl ⟨(List.lookup p PHRASE_EMOJI).getD "", translateLoop_matched _ _ _ _ _ hm⟩⟩
      have := List.length_drop (L - 1) rest
      simp [this]
      omega
  · rw [translate_sentence_eq, show tokenize "   " = [] from by decide, translateLoop_nil]
    rfl
  · have ha : translateLoop initTables ["!"] = .ok ["!"] :=
      translateLoop_step_ok initTables "!" [] "!" 0 (by decide) (by decide) []
        (translateLoop_nil _)
    have hb : translateLoop initTables ["?", "!"] = .ok ["?", "!"] :=
      translateLoop_step_ok initTables "?" ["!"] "?" 0 (by decide) (by decide) _ ha
    rw [translate_sentence_eq, show tokenize "?!" = ["?", "!"] from by decide, hb]
    decide

/-- Witness for C6: totality at the ß-free input "hi!". -/
theorem c6_witness : ∃ out, translate_sentence "hi!" = .ok out :=
  c6_totality.2.1 "hi!" (by decide)
